import Mathlib

/-!
# Verification of the CleanMyEmail core (IMAP bulk-deletion tool)

Shallow embedding of the repository's core components, translated from the
Go sources:

* `internal/email/cleaner/folder_cleaner.go` — size-filter parsing,
  sender-list parsing, OR-chain construction, search-criteria builders,
  client-side envelope filtering, per-folder cleaning and batched deletion,
  retry-with-reconnect;
* `internal/email/cleaner/cleaner.go` — run orchestration (date handling,
  folder dispatch, cancellation, aggregation);
* `internal/email/imap/pool.go` — the connection pool, modelled as a labelled
  transition system whose transitions are the pool's lock-protected code
  segments.

Machine integers (Go `int64`) are modelled as `Int` with explicit two's
complement wrapping where overflow matters.  Go strings are modelled as Lean
`String`, and the string primitives the code uses (`strings.HasPrefix`,
`strings.ToUpper`, `strings.Contains`, `strings.TrimSpace`, `strings.Split`,
`strconv.ParseInt`) are given small executable models over the character
list so that concrete inputs evaluate inside the kernel.
-/

namespace CleanMyEmail

/-! ## String primitives (models of the Go standard library functions used) -/

/-- Model of `strings.HasPrefix p` applied to `s` (Go: `strings.HasPrefix(s, p)`). -/
def goHasPre (s p : String) : Bool :=
  p.data.isPrefixOf s.data

/-- Model of `strings.HasSuffix(s, p)`. -/
def goHasSuf (s p : String) : Bool :=
  p.data.reverse.isPrefixOf s.data.reverse

/-- `s[n:]` on a Go string, byte/char slicing (all inputs involved are ASCII). -/
def strDrop (s : String) (n : Nat) : String :=
  ⟨s.data.drop n⟩

/-- `s[:len(s)-1]` on a Go string. -/
def strDropLast (s : String) : String :=
  ⟨s.data.dropLast⟩

/-- Model of `strings.ToUpper` (ASCII range; the inputs the code feeds it are
size-filter strings such as `"100k"`). -/
def goToUpper (s : String) : String :=
  ⟨s.data.map Char.toUpper⟩

/-- Model of `strings.ToLower` (ASCII range; used on e-mail addresses,
subjects and filter keywords). -/
def goToLower (s : String) : String :=
  ⟨s.data.map Char.toLower⟩

/-- Does `sub` occur as a contiguous sublist of `l`? -/
def containsList (l sub : List Char) : Bool :=
  if sub.isPrefixOf l then true
  else
    match l with
    | [] => false
    | _ :: rest => containsList rest sub

/-- Model of `strings.Contains(s, sub)`: substring test. -/
def goContains (s sub : String) : Bool :=
  containsList s.data sub.data

/-- Whitespace set of Go's `unicode.IsSpace`, restricted to the ASCII range. -/
def isGoSpace (c : Char) : Bool :=
  c = ' ' || c = '\t' || c = '\n' || c = '\r' || c = '\x0b' || c = '\x0c'

/-- Model of `strings.TrimSpace`. -/
def goTrimSpace (s : String) : String :=
  ⟨((s.data.dropWhile isGoSpace).reverse.dropWhile isGoSpace).reverse⟩

/-- Model of `strings.Split(s, ",")` (single-character separator). -/
def goSplitComma (s : String) : List String :=
  (s.data.splitOn ',').map (fun cs => ⟨cs⟩)

/-- Numeric value of a non-empty list of decimal digits; `none` if empty or
any character is not an ASCII digit. -/
def decDigitsVal (cs : List Char) : Option Nat :=
  if cs = [] then none
  else if cs.all Char.isDigit then
    some (cs.foldl (fun a c => a * 10 + (c.toNat - 48)) 0)
  else none

/-- Model of `strconv.ParseInt(s, 10, 64)`: optional sign, decimal digits,
`none` on a syntax or 64-bit range error (Go reports `ErrRange` and the
caller treats any error alike). -/
def goParseInt64 (s : String) : Option Int :=
  match s.data with
  | '+' :: rest =>
    match decDigitsVal rest with
    | some n => if (n : Int) ≤ 2 ^ 63 - 1 then some (n : Int) else none
    | none => none
  | '-' :: rest =>
    match decDigitsVal rest with
    | some n => if (n : Int) ≤ 2 ^ 63 then some (-(n : Int)) else none
    | none => none
  | l =>
    match decDigitsVal l with
    | some n => if (n : Int) ≤ 2 ^ 63 - 1 then some (n : Int) else none
    | none => none

/-- Two's-complement wrap of an integer into the `int64` range, modelling Go's
silent overflow on `int64` multiplication. -/
def wrap64 (n : Int) : Int :=
  (n + 2 ^ 63) % 2 ^ 64 - 2 ^ 63

/-! ## `parseSize` (folder_cleaner.go:99-128) -/

/-- Suffix/magnitude part of `parseSize`, after the comparator has been
stripped (folder_cleaner.go:115-127). -/
def parseSizeMag (op : String) (sizeStr0 : String) : Int × String :=
  let sizeStr1 := goToUpper sizeStr0
  let p :=
    if goHasSuf sizeStr1 "M" then ((1024 * 1024 : Int), strDropLast sizeStr1)
    else if goHasSuf sizeStr1 "K" then ((1024 : Int), strDropLast sizeStr1)
    else ((1 : Int), sizeStr1)
  match goParseInt64 p.2 with
  | some size => (wrap64 (size * p.1), op)
  | none => (0, "")

/-- Model of `parseSize` (folder_cleaner.go:99-128): parse a size filter
string such as `">1M"` into a byte count and a comparator. -/
def parseSize (sizeFilter : String) : Int × String :=
  if sizeFilter = "" then (0, "")
  else if goHasPre sizeFilter ">" then parseSizeMag ">" (strDrop sizeFilter 1)
  else if goHasPre sizeFilter "<" then parseSizeMag "<" (strDrop sizeFilter 1)
  else (0, "")

example : parseSize "<100K" = (102400, "<") := by decide
example : parseSize ">2M" = (2097152, ">") := by decide
example : parseSize "" = (0, "") := by decide
example : parseSize "100" = (0, "") := by decide
example : parseSize ">-5k" = (-5120, ">") := by decide
example : parseSize ">" = (0, "") := by decide
example : parseSize ">1x" = (0, "") := by decide

/-! ## Search criteria (the subset of go-imap's `imap.SearchCriteria` the
repository populates: `Before`, `Since`, `Larger`, `Smaller`, `Flag`,
`NotFlag`, `Header`, `Or`).  Dates are day numbers (`Int`); `Since = none`
models Go's zero `time.Time` left unset (folder_cleaner.go:187-213). -/

structure SCHeaderField where
  key : String
  value : String
deriving DecidableEq, Repr

inductive SearchCriteria : Type where
  | mk (before : Option Int) (since : Option Int)
       (larger : Int) (smaller : Int)
       (flag : List String) (notFlag : List String)
       (header : List SCHeaderField)
       (orPairs : List (SearchCriteria × SearchCriteria))

def SearchCriteria.Before : SearchCriteria → Option Int
  | .mk b _ _ _ _ _ _ _ => b

def SearchCriteria.Since : SearchCriteria → Option Int
  | .mk _ s _ _ _ _ _ _ => s

def SearchCriteria.Larger : SearchCriteria → Int
  | .mk _ _ l _ _ _ _ _ => l

def SearchCriteria.Smaller : SearchCriteria → Int
  | .mk _ _ _ s _ _ _ _ => s

def SearchCriteria.Flag : SearchCriteria → List String
  | .mk _ _ _ _ f _ _ _ => f

def SearchCriteria.NotFlag : SearchCriteria → List String
  | .mk _ _ _ _ _ nf _ _ => nf

def SearchCriteria.Header : SearchCriteria → List SCHeaderField
  | .mk _ _ _ _ _ _ h _ => h

def SearchCriteria.Or : SearchCriteria → List (SearchCriteria × SearchCriteria)
  | .mk _ _ _ _ _ _ _ o => o

/-- A criteria node carrying only a single `From` header predicate
(folder_cleaner.go:151-153 and 156-158). -/
def fromCrit (sender : String) : SearchCriteria :=
  .mk none none 0 0 [] [] [⟨"From", sender⟩] []

/-- A criteria node carrying only a single binary OR pair
(folder_cleaner.go:159). -/
def orNode (a b : SearchCriteria) : SearchCriteria :=
  .mk none none 0 0 [] [] [] [(a, b)]

/-- Model of `buildOrChain` (folder_cleaner.go:144-163).  The Go loop walks
the sender list from index `n-2` down to `0`, wrapping the accumulated
criteria in a fresh binary OR node each time; that downward loop is exactly a
right fold over `senders[0:n-1]` with `senders[n-1]` as the seed. -/
def buildOrChain (senders : List String) : List (SearchCriteria × SearchCriteria) :=
  if senders.length < 2 then []
  else
    (senders.dropLast.foldr (fun s acc => orNode (fromCrit s) acc)
      (fromCrit (senders.getLastD ""))).Or

/-- Spec-modelled right-nested OR chain, following the spec's words: "the
innermost pair is the last two senders and each preceding sender wraps the
remainder (`OR(s0, OR(s1, OR(s2, s3)))`)". -/
def specOrChain (x : String) (xs : List String) : SearchCriteria :=
  match xs with
  | [] => fromCrit x
  | y :: ys => orNode (fromCrit x) (specOrChain y ys)

example :
    buildOrChain ["a", "b", "c"] =
      [(fromCrit "a", orNode (fromCrit "b") (fromCrit "c"))] := rfl

/-! ### Evaluation semantics for criteria

`MsgView` abstracts one message as seen by a server evaluating a search
predicate: its internal date (day number), size, flag set, and a header
matcher (the server-side substring test on a header field).  IMAP criteria
are conjunctive; each `Or` pair is a binary disjunction. -/

structure MsgView where
  day : Int
  size : Int
  flags : List String
  headerMatch : String → String → Bool

mutual

/-- Does message view `v` satisfy criteria `c`? -/
def evalSC (v : MsgView) : SearchCriteria → Bool
  | .mk before since larger smaller flag notFlag header ors =>
    (match before with | none => true | some d => decide (v.day < d)) &&
    (match since with | none => true | some d => decide (d ≤ v.day)) &&
    (larger = 0 || decide (larger < v.size)) &&
    (smaller = 0 || decide (v.size < smaller)) &&
    flag.all (fun f => v.flags.contains f) &&
    notFlag.all (fun f => !v.flags.contains f) &&
    header.all (fun hf => v.headerMatch hf.key hf.value) &&
    evalOrPairs v ors

/-- Conjunction over a list of binary OR pairs. -/
def evalOrPairs (v : MsgView) : List (SearchCriteria × SearchCriteria) → Bool
  | [] => true
  | (a, b) :: rest => (evalSC v a || evalSC v b) && evalOrPairs v rest

end

theorem evalSC_fromCrit (v : MsgView) (s : String) :
    evalSC v (fromCrit s) = v.headerMatch "From" s := by
  simp [fromCrit, evalSC, evalOrPairs]

theorem evalSC_orNode (v : MsgView) (a b : SearchCriteria) :
    evalSC v (orNode a b) = (evalSC v a || evalSC v b) := by
  simp [orNode, evalSC, evalOrPairs]

theorem evalSC_specOrChain (v : MsgView) (x : String) (xs : List String) :
    evalSC v (specOrChain x xs) = (x :: xs).any (fun s => v.headerMatch "From" s) := by
  induction xs generalizing x with
  | nil => simp [specOrChain, evalSC_fromCrit]
  | cons y ys ih =>
    simp only [specOrChain, evalSC_orNode, evalSC_fromCrit, ih, List.any_cons]

theorem buildOrChain_eq_specOrChain (x : String) (xs : List String) :
    (x :: xs).dropLast.foldr (fun s acc => orNode (fromCrit s) acc)
      (fromCrit ((x :: xs).getLastD "")) = specOrChain x xs := by
  induction xs generalizing x with
  | nil => simp [specOrChain]
  | cons y ys ih =>
    have h := ih y
    rw [List.getLastD_cons] at h
    simp only [List.dropLast_cons₂, List.foldr_cons, List.getLastD_cons, specOrChain, h]

/-! ## Request model and criteria builders -/

/-- Model of `parseSenders` (folder_cleaner.go:130-142): split the sender
filter on commas, trim whitespace, drop empties. -/
def parseSenders (filterSender : String) : List String :=
  if filterSender = "" then []
  else ((goSplitComma filterSender).map goTrimSpace).filter (fun s => s ≠ "")

example : parseSenders "a@x.com, b@y.com ,," = ["a@x.com", "b@y.com"] := by decide

/-- The filter fields of `model.CleanRequest` that the per-folder cleaner
reads (the unnamed model source, `CleanRequest`, and folder_cleaner.go). -/
structure CleanReqM where
  previewOnly : Bool
  filterSender : String
  filterSubject : String
  filterSize : String
  filterRead : String
  enableClientFallback : Bool
deriving Repr

/-- Model of `cleanFolderContext` (folder_cleaner.go:173-184).  Dates are day
numbers; `startDate = none` models Go's zero `time.Time` (no start date). -/
structure CleanFolderCtx where
  folderName : String
  folderIdx : Nat
  totalFolders : Nat
  batchSize : Nat
  startDate : Option Int
  endDate : Int
  req : CleanReqM
  senders : List String
  subject : String

/-- `Clean`'s end-date adjustment (cleaner.go:109-110):
`endDate = endDate.Add(24 * time.Hour)` — one day past the parsed end date
(parsed dates are midnight UTC, so adding 24 hours is adding one day). -/
def cleanAdjustEndDate (d : Int) : Int := d + 1

/-- Model of `Cleaner.buildBaseCriteria` (folder_cleaner.go:186-213): date
window, size filter, read-state filter.  `AddDate(0, 0, 1)` on the context's
end date is another `+1` day. -/
def buildBaseCriteria (ctx : CleanFolderCtx) : SearchCriteria :=
  let p := parseSize ctx.req.filterSize
  let ls : Int × Int :=
    if p.1 > 0 then (if p.2 = ">" then (p.1, 0) else (0, p.1)) else (0, 0)
  let fl : List String × List String :=
    if ctx.req.filterRead = "seen" then (["\\Seen"], [])
    else if ctx.req.filterRead = "unseen" then ([], ["\\Seen"])
    else ([], [])
  .mk (some (ctx.endDate + 1)) ctx.startDate ls.1 ls.2 fl.1 fl.2 [] []

/-- Model of `Cleaner.buildFullCriteria` (folder_cleaner.go:215-239): the
base criteria plus subject and sender predicates. -/
def buildFullCriteria (ctx : CleanFolderCtx) : SearchCriteria :=
  match buildBaseCriteria ctx with
  | .mk b s lg sm f nf hdr orp =>
    let hdr := if ctx.subject ≠ "" then hdr ++ [⟨"Subject", ctx.subject⟩] else hdr
    if ctx.senders.length = 1 then
      .mk b s lg sm f nf (hdr ++ [⟨"From", ctx.senders.getD 0 ""⟩]) orp
    else if ctx.senders.length > 1 then
      .mk b s lg sm f nf hdr (buildOrChain ctx.senders)
    else
      .mk b s lg sm f nf hdr orp

/-! ## Envelope filtering (client-side fallback) -/

/-- An envelope as the cleaner consumes it: the `Addr()` strings of the
`From` list, plus the subject (go-imap `imap.Envelope` at the library
boundary). -/
structure EnvelopeM where
  fromAddrs : List String
  subject : String
deriving DecidableEq, Repr

/-- Model of `Cleaner.matchEnvelope` (folder_cleaner.go:554-588).  A `none`
envelope is the Go `nil` pointer. -/
def matchEnvelope (senders : List String) (subject : String) :
    Option EnvelopeM → Bool
  | none => false
  | some env =>
    let senderOk :=
      if senders.length > 0 then
        match env.fromAddrs with
        | [] => false
        | a0 :: _ =>
          senders.any (fun s => goContains (goToLower a0) (goToLower (goTrimSpace s)))
      else true
    if senderOk then
      if subject ≠ "" then
        goContains (goToLower env.subject) (goToLower (goTrimSpace subject))
      else true
    else false

/-! ## Mailbox model and the per-folder cleaning run

`cleanFolder` and its helpers are embedded as pure functions over a mailbox
(a list of messages) together with a trace of the protocol commands issued.
The embedding covers failure-free executions: connection acquisition,
`SELECT` and the network operations succeed, so `retryWithReconnect`
collapses to a single invocation of its operation (its retry behaviour is
modelled separately below).  The run-scoped cancellation token is a constant
`Bool` sampled at every check the code performs.  The server's search is an
arbitrary function parameter `searchFn`, since its semantics belong to the
server, not to this code. -/

/-- One message on the server: UID, internal date (day number), size, flag
set, envelope, and the `\Deleted` mark used by store/expunge. -/
structure GoMessage where
  uid : Nat
  day : Int
  size : Int
  flags : List String
  env : EnvelopeM
  deleted : Bool
deriving DecidableEq, Repr

/-- Protocol commands whose issuance the embedding records. -/
inductive Cmd where
  | select (name : String)
  | search
  | fetch (uids : List Nat)
  | store (uids : List Nat)
  | expunge
deriving DecidableEq, Repr

/-- `STORE +FLAGS \Deleted` on a UID set (deleteBatch, folder_cleaner.go:468-473). -/
def goStore (uids : List Nat) (mbox : List GoMessage) : List GoMessage :=
  mbox.map (fun m => if uids.contains m.uid then { m with deleted := true } else m)

/-- `EXPUNGE` (deleteBatch, folder_cleaner.go:475-477). -/
def goExpunge (mbox : List GoMessage) : List GoMessage :=
  mbox.filter (fun m => !m.deleted)

def fetchBatchSize : Nat := 100

/-- Split a list into consecutive chunks of `bs` elements (the index-based
batching loops in folder_cleaner.go:309-317 and 506-513).  All call sites
pass `bs ≥ 1` (`fetchBatchSize = 100`; `GetBatchSize` never returns less
than 1); `max bs 1` only makes the function total. -/
def chunksOf (bs : Nat) : List α → List (List α)
  | [] => []
  | x :: xs => (x :: xs).take (max bs 1) :: chunksOf bs ((x :: xs).drop (max bs 1))
termination_by l => l.length
decreasing_by
  simp only [List.length_drop, List.length_cons]
  omega

/-- Per-folder outcome (`model.FolderCleanStat`). -/
structure FolderCleanStatM where
  folder : String
  matchedCount : Nat
  deletedCount : Nat
  status : String
  error : String
deriving DecidableEq, Repr

/-- Model of `Cleaner.searchEmails` (folder_cleaner.go:242-303) on a
failure-free session: the full-criteria UID search, then — when the client
fallback is enabled, the full search matched nothing and sender/subject
filters are present — the base-criteria search, switching to client-side
filtering if it matched anything.  `none` models the cancellation error the
operation returns when the run is cancelled. -/
def searchEmailsRun (searchFn : SearchCriteria → List GoMessage → List Nat)
    (cancelled : Bool) (ctx : CleanFolderCtx) (mbox : List GoMessage) :
    Option (List Nat × Bool) × List Cmd :=
  let hasFilters := ctx.senders.length > 0 || ctx.subject != ""
  if cancelled then (none, [])
  else
    let uids := searchFn (buildFullCriteria ctx) mbox
    if ctx.req.enableClientFallback && uids.length == 0 && hasFilters then
      let baseUids := searchFn (buildBaseCriteria ctx) mbox
      if baseUids.length > 0 then (some (baseUids, true), [.search, .search])
      else (some (uids, false), [.search, .search])
    else (some (uids, false), [.search])

/-- Model of `Cleaner.filterByEnvelope` (folder_cleaner.go:482-552): fetch
envelopes in batches of `fetchBatchSize` and keep the UIDs whose envelope
matches; `none` models the cancellation error (checked at the top of every
batch; the token is constant here, so it fires at the first batch or not at
all). -/
def filterByEnvelope (cancelled : Bool) (ctx : CleanFolderCtx)
    (mbox : List GoMessage) (uids : List Nat) : Option (List Nat) × List Cmd :=
  if uids = [] then (some uids, [])
  else if ctx.senders = [] && ctx.subject = "" then (some uids, [])
  else if cancelled then (none, [])
  else
    let keep := fun (batch : List Nat) =>
      ((mbox.filter (fun m => batch.contains m.uid)).filter
        (fun m => matchEnvelope ctx.senders ctx.subject (some m.env))).map (fun m => m.uid)
    (some ((chunksOf fetchBatchSize uids).foldl (fun acc b => acc ++ keep b) []),
     (chunksOf fetchBatchSize uids).map (fun b => Cmd.fetch b))

/-- Result of one folder run: its stat, the mailbox after the run, and the
trace of commands issued. -/
structure FolderRunOut where
  stat : FolderCleanStatM
  mbox : List GoMessage
  trace : List Cmd
deriving Repr

/-- Model of `Cleaner.deleteEmailBatches` (folder_cleaner.go:306-345) on a
failure-free session: per batch, check cancellation, mark the batch
`\Deleted`, expunge, and accumulate the deleted count. -/
def deleteBatchesGo (cancelled : Bool) (stat : FolderCleanStatM)
    (mbox : List GoMessage) (trace : List Cmd) :
    List (List Nat) → FolderRunOut
  | [] => ⟨stat, mbox, trace⟩
  | b :: rest =>
    if cancelled then ⟨{ stat with status := "cancelled" }, mbox, trace⟩
    else
      deleteBatchesGo cancelled { stat with deletedCount := stat.deletedCount + b.length }
        (goExpunge (goStore b mbox)) (trace ++ [.store b, .expunge]) rest

/-- Model of `Cleaner.cleanFolder` (folder_cleaner.go:359-447) on a
failure-free session. -/
def cleanFolderRun (searchFn : SearchCriteria → List GoMessage → List Nat)
    (cancelled : Bool) (ctx : CleanFolderCtx) (mbox : List GoMessage) :
    FolderRunOut :=
  let stat0 : FolderCleanStatM := ⟨ctx.folderName, 0, 0, "completed", ""⟩
  let trace0 : List Cmd := [.select ctx.folderName]
  if mbox.length = 0 then ⟨stat0, mbox, trace0⟩
  else
    match searchEmailsRun searchFn cancelled ctx mbox with
    | (none, tr) =>
      ⟨{ stat0 with status := "failed", error := "search failed: cancelled" },
        mbox, trace0 ++ tr⟩
    | (some (uids, needCF), tr) =>
      let trace1 := trace0 ++ tr
      if uids = [] then ⟨stat0, mbox, trace1⟩
      else
        match (if needCF then filterByEnvelope cancelled ctx mbox uids
               else (some uids, [])) with
        | (none, tr2) =>
          ⟨{ stat0 with status := "cancelled" }, mbox, trace1 ++ tr2⟩
        | (some uids2, tr2) =>
          let trace2 := trace1 ++ tr2
          let stat1 := { stat0 with matchedCount := uids2.length }
          if uids2 = [] then ⟨stat1, mbox, trace2⟩
          else if ctx.req.previewOnly then ⟨stat1, mbox, trace2⟩
          else deleteBatchesGo cancelled stat1 mbox trace2 (chunksOf ctx.batchSize uids2)

/-- The UIDs a (failure-free, uncancelled) run ends up treating as matches:
the search result, after client-side filtering when the fallback engaged.
Composition of the source-modelled `searchEmailsRun` and
`filterByEnvelope`. -/
def finalMatchedUids (searchFn : SearchCriteria → List GoMessage → List Nat)
    (ctx : CleanFolderCtx) (mbox : List GoMessage) : List Nat :=
  match searchEmailsRun searchFn false ctx mbox with
  | (none, _) => []
  | (some (uids, needCF), _) =>
    if uids = [] then []
    else if needCF then
      match filterByEnvelope false ctx mbox uids with
      | (none, _) => uids
      | (some u2, _) => u2
    else uids

/-- `true` iff the command is neither a store nor an expunge. -/
def cmdNotStoreExpunge : Cmd → Bool
  | .store _ => false
  | .expunge => false
  | _ => true

theorem searchEmailsRun_fst_isSome (searchFn) (ctx : CleanFolderCtx)
    (mbox : List GoMessage) :
    (searchEmailsRun searchFn false ctx mbox).1.isSome = true := by
  simp only [searchEmailsRun]
  split_ifs <;> simp_all

theorem searchEmailsRun_trace_ok (searchFn) (c : Bool) (ctx : CleanFolderCtx)
    (mbox : List GoMessage) :
    ((searchEmailsRun searchFn c ctx mbox).2).all cmdNotStoreExpunge = true := by
  simp only [searchEmailsRun]
  split
  · simp
  · split
    · split <;> simp [cmdNotStoreExpunge]
    · simp [cmdNotStoreExpunge]

theorem filterByEnvelope_fst_isSome (ctx : CleanFolderCtx)
    (mbox : List GoMessage) (uids : List Nat) :
    ((filterByEnvelope false ctx mbox uids).1).isSome = true := by
  unfold filterByEnvelope
  split
  · simp
  · split <;> simp

theorem filterByEnvelope_trace_ok (c : Bool) (ctx : CleanFolderCtx)
    (mbox : List GoMessage) (uids : List Nat) :
    ((filterByEnvelope c ctx mbox uids).2).all cmdNotStoreExpunge = true := by
  unfold filterByEnvelope
  split
  · simp
  · split
    · simp
    · split
      · simp
      · simp [List.all_map, cmdNotStoreExpunge]

/-- C8: for a run with `previewOnly = true` on a nonempty folder with `N`
matching messages (`N > 0`), `cleanFolder` reports `matchedCount = N` and
`deletedCount = 0`, never issues a store or expunge command, and leaves the
mailbox unchanged. -/
theorem preview_only_mutates_nothing
    (searchFn : SearchCriteria → List GoMessage → List Nat)
    (ctx : CleanFolderCtx) (mbox : List GoMessage)
    (hp : ctx.req.previewOnly = true) (hm : ¬ mbox.length = 0)
    (hN : 0 < (finalMatchedUids searchFn ctx mbox).length) :
    (cleanFolderRun searchFn false ctx mbox).stat.matchedCount =
      (finalMatchedUids searchFn ctx mbox).length ∧
    (cleanFolderRun searchFn false ctx mbox).stat.deletedCount = 0 ∧
    (cleanFolderRun searchFn false ctx mbox).mbox = mbox ∧
    ((cleanFolderRun searchFn false ctx mbox).trace).all cmdNotStoreExpunge = true := by
  rcases hsr : searchEmailsRun searchFn false ctx mbox with ⟨o, tr⟩
  have htr : tr.all cmdNotStoreExpunge = true := by
    have h := searchEmailsRun_trace_ok searchFn false ctx mbox
    rw [hsr] at h
    exact h
  cases o with
  | none =>
    have h := searchEmailsRun_fst_isSome searchFn ctx mbox
    rw [hsr] at h
    simp at h
  | some p =>
    rcases p with ⟨uids, ncf⟩
    simp only [cleanFolderRun, finalMatchedUids, hsr, if_neg hm] at hN ⊢
    by_cases hu : uids = []
    · simp [hu] at hN
    · cases ncf with
      | false =>
        simp only [if_neg hu, Bool.false_eq_true, if_false] at hN ⊢
        simp [hp, hu, htr, cmdNotStoreExpunge]
      | true =>
        simp only [if_neg hu, if_true] at hN ⊢
        rcases hf : filterByEnvelope false ctx mbox uids with ⟨of, tr2⟩
        have htr2 : tr2.all cmdNotStoreExpunge = true := by
          have h := filterByEnvelope_trace_ok false ctx mbox uids
          rw [hf] at h
          exact h
        cases of with
        | none =>
          have h := filterByEnvelope_fst_isSome ctx mbox uids
          rw [hf] at h
          simp at h
        | some u2 =>
          simp only [hf] at hN ⊢
          have hu2 : ¬ u2 = [] := by
            intro he
            rw [he] at hN
            simp at hN
          simp [hp, hu2, htr, htr2, cmdNotStoreExpunge]

/-- A server search that matches every message; used to exercise the
preview theorem on a concrete mailbox. -/
def sfAll : SearchCriteria → List GoMessage → List Nat :=
  fun _ msgs => msgs.map (fun m => m.uid)

def ctxPreview : CleanFolderCtx :=
  ⟨"INBOX", 0, 1, 500, none, 20000, ⟨true, "", "", "", "", false⟩, [], ""⟩

def mboxPreview : List GoMessage :=
  [⟨1, 19999, 10, [], ⟨["a@x.com"], "hello"⟩, false⟩]

/-- C8 witness: the preview theorem applied to a concrete one-message
mailbox. -/
theorem preview_only_mutates_nothing_witness :
    (cleanFolderRun sfAll false ctxPreview mboxPreview).stat.matchedCount =
      (finalMatchedUids sfAll ctxPreview mboxPreview).length ∧
    (cleanFolderRun sfAll false ctxPreview mboxPreview).stat.deletedCount = 0 ∧
    (cleanFolderRun sfAll false ctxPreview mboxPreview).mbox = mboxPreview ∧
    ((cleanFolderRun sfAll false ctxPreview mboxPreview).trace).all
      cmdNotStoreExpunge = true :=
  preview_only_mutates_nothing sfAll ctxPreview mboxPreview rfl
    (by decide) (by decide)

/-! ## C1: the upper date bound of the search predicate

`Clean` (cleaner.go:105-110) parses the request's end date `D` and advances
it by 24 hours ("include the end day"); `buildBaseCriteria`
(folder_cleaner.go:188-189) then adds one more day via `AddDate(0, 0, 1)`
("BEFORE is strictly-less-than").  Composed, the `Before` bound is `D + 2`
days, not the `D + 1` the spec states: a message dated on day `D + 1` —
after the requested end date — still satisfies the predicate. -/

/-- C1: the `Before` bound that reaches the server is the requested end date
plus two days, so a message with internal date `D + 1` (strictly after the
requested end date `D`) satisfies the date window.  This contradicts the
claimed `D + 1` bound; both Go comments say "+1 day to include the end day",
so the double addition is a slip of the code, not of the spec. -/
theorem before_bound_is_end_plus_two (d : Int) (fn : String) (fi tf bs : Nat)
    (sd : Option Int) (req : CleanReqM) (senders : List String) (subj : String) :
    (buildBaseCriteria
        ⟨fn, fi, tf, bs, sd, cleanAdjustEndDate d, req, senders, subj⟩).Before =
      some (d + 2) ∧
    (∀ v : MsgView, v.day = d + 1 →
      (match (buildBaseCriteria
          ⟨fn, fi, tf, bs, sd, cleanAdjustEndDate d, req, senders, subj⟩).Before with
        | none => true
        | some b => decide (v.day < b)) = true) ∧
    d + 2 ≠ d + 1 := by
  refine ⟨?_, ?_, by omega⟩
  · simp [buildBaseCriteria, cleanAdjustEndDate, SearchCriteria.Before]
    omega
  · intro v hv
    simp [buildBaseCriteria, cleanAdjustEndDate, SearchCriteria.Before, hv]

/-- C6: for a sender list of length at least two, `buildOrChain` produces a
single strictly binary OR pair whose left side is the first sender and whose
right side is the right-nested chain of the remaining senders (innermost
pair = last two senders), and the resulting predicate evaluates exactly like
the disjunction of the per-sender `From` header predicates, for every
message view. -/
theorem buildOrChain_right_nested_equiv (a b : String) (rest : List String)
    (v : MsgView) :
    buildOrChain (a :: b :: rest) = [(fromCrit a, specOrChain b rest)] ∧
    evalOrPairs v (buildOrChain (a :: b :: rest)) =
      (a :: b :: rest).any (fun s => v.headerMatch "From" s) := by
  have hlen : ¬ (a :: b :: rest).length < 2 := by
    simp only [List.length_cons]
    omega
  have hchain : buildOrChain (a :: b :: rest) = [(fromCrit a, specOrChain b rest)] := by
    unfold buildOrChain
    rw [if_neg hlen, buildOrChain_eq_specOrChain]
    rfl
  refine ⟨hchain, ?_⟩
  rw [hchain]
  simp [evalOrPairs, evalSC_fromCrit, evalSC_orNode, evalSC_specOrChain]

/-- C1 witness: end date day 0 — the bound is day 2, and a message on day 1
passes the date check. -/
theorem before_bound_witness :
    (buildBaseCriteria
        ⟨"INBOX", 0, 1, 500, none, cleanAdjustEndDate 0,
          ⟨false, "", "", "", "", false⟩, [], ""⟩).Before = some 2 ∧
    (2 : Int) ≠ 1 :=
  ⟨(before_bound_is_end_plus_two 0 "INBOX" 0 1 500 none
      ⟨false, "", "", "", "", false⟩ [] "").1,
   by decide⟩

/-! ## C7: `parseSize` input/output behaviour

The claim's concrete cases all hold.  Its general clause — "a leading `>` or
`<` followed by a decimal magnitude with optional `K` (×1024) or `M`
(×1024²) suffix yields `(magnitude × multiplier, comparator)`, and any other
input yields `(0, "")`" — is falsified by `">-5k"`: the magnitude part is
uppercased before the suffix test (so lowercase `k`/`m` are accepted) and
`strconv.ParseInt` accepts a sign, so the code returns `(-5120, ">")` where
the clause as stated demands `(0, "")`. -/

/-- The shape the claim's general clause describes, literally: a leading
comparator, then a non-empty run of decimal digits, then an optional `K` or
`M`. -/
def claimSizeShape (s : String) : Bool :=
  match s.data with
  | [] => false
  | c :: rest =>
    (c = '>' || c = '<') &&
    (let ds := if rest.getLast? = some 'K' || rest.getLast? = some 'M'
               then rest.dropLast else rest
     ds ≠ [] && ds.all Char.isDigit)

/-- C7 counterexample: `">-5k"` is not of the claimed shape, so the claim
says `parseSize ">-5k" = (0, "")`; the code returns `(-5120, ">")`. -/
theorem parseSize_claim_counterexample :
    claimSizeShape ">-5k" = false ∧
    parseSize ">-5k" = (-5120, ">") ∧
    ((-5120 : Int), ">") ≠ ((0 : Int), "") := by
  refine ⟨by decide, by decide, by decide⟩

/-- Modelled from the amended claim: a leading `>` or `<`, followed by an
optionally signed decimal integer in 64-bit range (what the base-10 64-bit
integer parser accepts) with an optional case-insensitive `K`/`M` suffix,
yields `(value × multiplier, comparator)` (product wrapped to `int64`); any
other input yields `(0, "")`. -/
def specSizeMag (op : String) (rest : List Char) : Int × String :=
  let up := rest.map Char.toUpper
  let p : Int × List Char :=
    if up.getLast? == some 'M' then (1024 * 1024, up.dropLast)
    else if up.getLast? == some 'K' then (1024, up.dropLast)
    else (1, up)
  match goParseInt64 ⟨p.2⟩ with
  | some n => (wrap64 (n * p.1), op)
  | none => (0, "")

/-- Modelled from the amended claim (entry point): dispatch on the leading
comparator character. -/
def specParseSize (s : String) : Int × String :=
  match s.data with
  | [] => (0, "")
  | c :: rest =>
    if c = '>' then specSizeMag ">" rest
    else if c = '<' then specSizeMag "<" rest
    else (0, "")

theorem isPrefixOf_single_reverse (l : List Char) (c : Char) :
    List.isPrefixOf [c] l.reverse = (l.getLast? == some c) := by
  cases hrev : l.reverse with
  | nil =>
    have hl : l = [] := by simpa using congrArg List.reverse hrev
    subst hl
    simp [List.isPrefixOf]
  | cons x xs =>
    have hgl : l.getLast? = some x := by
      rw [← List.head?_reverse, hrev]
      rfl
    rw [hgl]
    by_cases h : c = x
    · subst h
      simp [List.isPrefixOf]
    · simp [List.isPrefixOf, h, Ne.symm h]

theorem goHasSuf_single (t : String) (c : Char) :
    goHasSuf t ⟨[c]⟩ = (t.data.getLast? == some c) := by
  show List.isPrefixOf [c] t.data.reverse = _
  exact isPrefixOf_single_reverse t.data c

theorem parseSizeMag_eq_spec (op : String) (t : String) :
    parseSizeMag op t = specSizeMag op t.data := by
  have hM : goHasSuf (goToUpper t) "M" =
      ((t.data.map Char.toUpper).getLast? == some 'M') :=
    goHasSuf_single (goToUpper t) 'M'
  have hK : goHasSuf (goToUpper t) "K" =
      ((t.data.map Char.toUpper).getLast? == some 'K') :=
    goHasSuf_single (goToUpper t) 'K'
  by_cases hb1 : ((t.data.map Char.toUpper).getLast? == some 'M') = true
  · simp only [parseSizeMag, specSizeMag, hM, hK, hb1, if_true]
    rfl
  · rw [Bool.not_eq_true] at hb1
    by_cases hb2 : ((t.data.map Char.toUpper).getLast? == some 'K') = true
    · simp only [parseSizeMag, specSizeMag, hM, hK, hb1, hb2, Bool.false_eq_true,
        if_false, if_true]
      rfl
    · rw [Bool.not_eq_true] at hb2
      simp only [parseSizeMag, specSizeMag, hM, hK, hb1, hb2, Bool.false_eq_true,
        if_false]
      rfl

/-- C7 (amended): the concrete cases from the claim, and the general clause
with a sign admitted, the suffix case-insensitive, and 64-bit range/wrap
made explicit — `parseSize` agrees with the spec-modelled parser on every
input. -/
theorem parseSize_amended_spec :
    parseSize "<100K" = (102400, "<") ∧
    parseSize ">2M" = (2097152, ">") ∧
    parseSize "" = (0, "") ∧
    parseSize "100" = (0, "") ∧
    ∀ s : String, parseSize s = specParseSize s := by
  refine ⟨by decide, by decide, by decide, by decide, ?_⟩
  intro s
  obtain ⟨data⟩ := s
  cases data with
  | nil => decide
  | cons c rest =>
    have hne : (⟨c :: rest⟩ : String) ≠ "" := by
      intro h
      simpa using congrArg String.data h
    have hdrop : strDrop ⟨c :: rest⟩ 1 = ⟨rest⟩ := rfl
    unfold parseSize specParseSize
    rw [if_neg hne]
    have hgt : goHasPre ⟨c :: rest⟩ ">" = (('>' : Char) == c) := by
      show List.isPrefixOf ['>'] (c :: rest) = _
      simp [List.isPrefixOf]
    have hlt : goHasPre ⟨c :: rest⟩ "<" = (('<' : Char) == c) := by
      show List.isPrefixOf ['<'] (c :: rest) = _
      simp [List.isPrefixOf]
    by_cases hc1 : c = '>'
    · subst hc1
      simp only [hgt, beq_self_eq_true, if_true, hdrop]
      simpa using parseSizeMag_eq_spec ">" ⟨rest⟩
    · by_cases hc2 : c = '<'
      · subst hc2
        simp only [hgt, hlt, if_true, hdrop]
        have : (('>' : Char) == '<') = false := by decide
        rw [this]
        simp only [Bool.false_eq_true, if_false, beq_self_eq_true, if_true]
        simpa using parseSizeMag_eq_spec "<" ⟨rest⟩
      · have e1 : (('>' : Char) == c) = false := by
          simp [Ne.symm hc1]
        have e2 : (('<' : Char) == c) = false := by
          simp [Ne.symm hc2]
        rw [hgt, hlt, e1, e2]
        simp [hc1, hc2]

/-! ## C10: client-side envelope matching -/

/-- C10: a `nil` envelope never matches; with sender filters configured, an
empty `From` list never matches; sender matching is a case-insensitive
substring test against the first `From` address only (later addresses are
never consulted), with any one configured sender sufficing, conjoined with
the subject check. -/
theorem matchEnvelope_first_from_only (senders : List String) (subject : String) :
    matchEnvelope senders subject none = false ∧
    (senders ≠ [] → ∀ subj2 : String,
      matchEnvelope senders subject (some ⟨[], subj2⟩) = false) ∧
    (∀ (a : String) (rest rest2 : List String) (subj2 : String),
      matchEnvelope senders subject (some ⟨a :: rest, subj2⟩) =
        matchEnvelope senders subject (some ⟨a :: rest2, subj2⟩)) ∧
    (senders ≠ [] → ∀ (a : String) (rest : List String) (subj2 : String),
      matchEnvelope senders subject (some ⟨a :: rest, subj2⟩) =
        ((senders.any fun s => goContains (goToLower a) (goToLower (goTrimSpace s))) &&
          (if subject ≠ "" then
            goContains (goToLower subj2) (goToLower (goTrimSpace subject))
          else true))) := by
  have hlen : senders ≠ [] → senders.length > 0 := by
    cases senders with
    | nil => intro hs; exact absurd rfl hs
    | cons x xs => intro _; simp
  refine ⟨rfl, ?_, ?_, ?_⟩
  · intro hs subj2
    simp [matchEnvelope, hlen hs]
  · intro a rest rest2 subj2
    rfl
  · intro hs a rest subj2
    simp only [matchEnvelope, if_pos (hlen hs)]
    cases hb : senders.any fun s => goContains (goToLower a) (goToLower (goTrimSpace s)) <;>
      simp [hb]

/-- C10 witness: concrete envelopes — `nil` rejected, empty `From` rejected,
only the first address consulted, case-insensitive substring on it. -/
theorem matchEnvelope_first_from_only_witness :
    matchEnvelope ["X@a.COM"] "" none = false ∧
    matchEnvelope ["X@a.COM"] "" (some ⟨[], "s"⟩) = false ∧
    matchEnvelope ["X@a.COM"] "" (some ⟨["x@A.com", "other@b.com"], "s"⟩) =
      matchEnvelope ["X@a.COM"] "" (some ⟨["x@A.com"], "s"⟩) ∧
    matchEnvelope ["X@a.COM"] "" (some ⟨["x@A.com", "other@b.com"], "s"⟩) =
      ((["X@a.COM"].any fun s =>
          goContains (goToLower "x@A.com") (goToLower (goTrimSpace s))) &&
        (if ("" : String) ≠ "" then
          goContains (goToLower "s") (goToLower (goTrimSpace ""))
        else true)) := by
  obtain ⟨h1, h2, h3, h4⟩ := matchEnvelope_first_from_only ["X@a.COM"] ""
  exact ⟨h1, h2 (by decide) "s", h3 "x@A.com" ["other@b.com"] [] "s",
    h4 (by decide) "x@A.com" ["other@b.com"] "s"⟩

/-! ## C9: `retryWithReconnect` (folder_cleaner.go:35-75)

The helper is modelled as a recursion over the loop counter.  The
environment supplies the outcome of each externally visible event: the
cancellation token sampled at the top of iteration `retry`, the wrapped
operation's result on attempt `retry` (`none` = success), and the outcomes
of the reconnect (`MarkBad` + `getConnection`) and folder re-`Select` between
attempts.  The second component of the result counts how many times the
wrapped operation was invoked. -/

def maxRetries : Nat := 3

structure RetryEnv where
  cancelled : Nat → Bool
  opErr : Nat → Option String
  reconnectOk : Nat → Bool
  reselectOk : Nat → Bool

inductive RetryOut where
  | ok (attempts : Nat)
  | cancelledErr
  | reconnectErr
  | reselectErr
  | exhausted (retries : Nat) (lastErr : String)
deriving DecidableEq, Repr

/-- The body of `retryWithReconnect`'s loop (folder_cleaner.go:44-74):
cancellation check, operation, and — except after the last attempt —
backoff, MarkBad, reconnect, re-select, and the next iteration.  Falling out
of the loop returns the exhaustion error built from `lastErr`
(folder_cleaner.go:74). -/
def retryGo (env : RetryEnv) (folderName : String) (lastErr : String)
    (retry calls : Nat) : RetryOut × Nat :=
  if retry < maxRetries then
    if env.cancelled retry then (.cancelledErr, calls)
    else
      match env.opErr retry with
      | none => (.ok (retry + 1), calls + 1)
      | some e =>
        if retry < maxRetries - 1 then
          if !env.reconnectOk retry then (.reconnectErr, calls + 1)
          else if folderName != "" && !env.reselectOk retry then (.reselectErr, calls + 1)
          else retryGo env folderName e (retry + 1) (calls + 1)
        else (.exhausted maxRetries e, calls + 1)
  else (.exhausted maxRetries lastErr, calls)
termination_by maxRetries - retry

/-- Model of `Cleaner.retryWithReconnect` (folder_cleaner.go:35-75). -/
def retryWithReconnect (env : RetryEnv) (folderName : String) : RetryOut × Nat :=
  retryGo env folderName "" 0 0

theorem retryGo_unfold (env : RetryEnv) (f le : String) (r c : Nat) :
    retryGo env f le r c =
      if r < maxRetries then
        if env.cancelled r then (.cancelledErr, c)
        else
          match env.opErr r with
          | none => (.ok (r + 1), c + 1)
          | some e =>
            if r < maxRetries - 1 then
              if !env.reconnectOk r then (.reconnectErr, c + 1)
              else if f != "" && !env.reselectOk r then (.reselectErr, c + 1)
              else retryGo env f e (r + 1) (c + 1)
            else (.exhausted maxRetries e, c + 1)
      else (.exhausted maxRetries le, c) := by
  rw [retryGo]

/-- Attempts `0 .. i-1` all proceeded and failed: not cancelled, the
operation erred, and the reconnect and (if a folder is active) re-select
succeeded. -/
def attemptRuns (env : RetryEnv) (f : String) (i : Nat) : Prop :=
  ∀ j, j < i → env.cancelled j = false ∧ (env.opErr j).isSome = true ∧
    env.reconnectOk j = true ∧ (f = "" ∨ env.reselectOk j = true)

theorem retryGo_fail_step (env : RetryEnv) (f le : String) (r c : Nat)
    (hr : r < maxRetries - 1) (hc : env.cancelled r = false)
    (e : String) (hop : env.opErr r = some e) (hrc : env.reconnectOk r = true)
    (hrs : f = "" ∨ env.reselectOk r = true) :
    retryGo env f le r c = retryGo env f e (r + 1) (c + 1) := by
  rw [retryGo_unfold, if_pos (by omega : r < maxRetries), hc, hop]
  simp only [Bool.false_eq_true, if_false, if_pos hr, hrc, Bool.not_true,
    Bool.and_false, Bool.false_eq_true]
  rcases hrs with h | h
  · subst h
    simp
  · simp [h]

theorem retryGo_calls_le (env : RetryEnv) (f : String) :
    ∀ (n r : Nat), maxRetries - r ≤ n →
      ∀ (le : String) (c : Nat), (retryGo env f le r c).2 ≤ c + (maxRetries - r) := by
  have hm : maxRetries = 3 := rfl
  intro n
  induction n with
  | zero =>
    intro r hr le c
    rw [retryGo_unfold, if_neg (show ¬ r < maxRetries by omega)]
    omega
  | succ n ih =>
    intro r hr le c
    by_cases h : r < maxRetries
    · rw [retryGo_unfold, if_pos h]
      cases hc : env.cancelled r with
      | true =>
        rw [if_pos rfl]
        dsimp only
        omega
      | false =>
        simp only [Bool.false_eq_true, if_false]
        rcases hop : env.opErr r with _ | e
        · dsimp only
          omega
        · dsimp only
          by_cases h2 : r < maxRetries - 1
          · rw [if_pos h2]
            cases hrc : env.reconnectOk r with
            | false =>
              rw [if_pos (show (!false) = true by decide)]
              dsimp only
              omega
            | true =>
              simp only [Bool.not_true, Bool.false_eq_true, if_false]
              by_cases h3 : (f != "" && !env.reselectOk r) = true
              · rw [if_pos h3]
                dsimp only
                omega
              · rw [if_neg h3]
                have hrec := ih (r + 1) (by omega) e (c + 1)
                omega
          · rw [if_neg h2]
            dsimp only
            omega
    · rw [retryGo_unfold, if_neg h]
      omega

/-- C9: `retryWithReconnect` invokes the wrapped operation at most 3 times;
it returns success on the first attempt that succeeds (with the count of
operation invocations made); cancellation is checked before every attempt
and aborts immediately, without invoking the operation again; and if all 3
attempts fail it returns an exhaustion error carrying the retry count (3)
and the last underlying operation error. -/
theorem retryWithReconnect_spec (env : RetryEnv) (f : String) :
    (retryWithReconnect env f).2 ≤ 3 ∧
    (∀ i, i < 3 → attemptRuns env f i → env.cancelled i = false →
      env.opErr i = none → retryWithReconnect env f = (.ok (i + 1), i + 1)) ∧
    (∀ i, i < 3 → attemptRuns env f i → env.cancelled i = true →
      retryWithReconnect env f = (.cancelledErr, i)) ∧
    (∀ e, attemptRuns env f 2 → env.cancelled 2 = false → env.opErr 2 = some e →
      retryWithReconnect env f = (.exhausted 3 e, 3)) := by
  have hstep : ∀ (i : Nat) (le : String), i < 3 → attemptRuns env f i →
      retryWithReconnect env f = retryGo env f le i i ∨
      (∃ le2, retryWithReconnect env f = retryGo env f le2 i i) := by
    intro i le hi hrun
    right
    induction i with
    | zero => exact ⟨"", rfl⟩
    | succ k ihk =>
      obtain ⟨le2, hle2⟩ := ihk (by omega) (fun j hj => hrun j (by omega))
      obtain ⟨hc, hop, hrc, hrs⟩ := hrun k (by omega)
      obtain ⟨e, he⟩ := Option.isSome_iff_exists.mp hop
      exact ⟨e, by
        rw [hle2, retryGo_fail_step env f le2 k k (by
          simp only [maxRetries]
          omega) hc e he hrc hrs]⟩
  have hreach : ∀ (i : Nat), i < 3 → attemptRuns env f i →
      ∃ le2, retryWithReconnect env f = retryGo env f le2 i i := by
    intro i hi hrun
    rcases hstep i "" hi hrun with h | h
    · exact ⟨"", h⟩
    · exact h
  refine ⟨?_, ?_, ?_, ?_⟩
  · have h := retryGo_calls_le env f maxRetries 0 (by omega) "" 0
    simpa [retryWithReconnect, maxRetries] using h
  · intro i hi hrun hc hop
    obtain ⟨le2, hle2⟩ := hreach i hi hrun
    rw [hle2, retryGo_unfold, if_pos (by simpa [maxRetries] using hi), hc, hop]
    simp
  · intro i hi hrun hc
    obtain ⟨le2, hle2⟩ := hreach i hi hrun
    rw [hle2, retryGo_unfold, if_pos (by simpa [maxRetries] using hi), hc]
    simp
  · intro e hrun hc hop
    obtain ⟨le2, hle2⟩ := hreach 2 (by omega) hrun
    rw [hle2, retryGo_unfold, if_pos (by simp [maxRetries]), hc, hop]
    simp [maxRetries]

/-- A concrete retry environment: the first attempt fails, the reconnect
succeeds, the second attempt succeeds. -/
def envRetryW : RetryEnv :=
  ⟨fun _ => false, fun j => if j = 0 then some "boom" else none,
    fun _ => true, fun _ => true⟩

/-- C9 witness: on the concrete environment the helper succeeds on the
second attempt, having invoked the operation exactly twice. -/
theorem retryWithReconnect_spec_witness :
    retryWithReconnect envRetryW "INBOX" = (.ok 2, 2) :=
  (retryWithReconnect_spec envRetryW "INBOX").2.1 1 (by omega)
    (by
      intro j hj
      interval_cases j
      exact ⟨rfl, rfl, rfl, Or.inr rfl⟩)
    rfl rfl

/-! ## Connection pool (pool.go) as a labelled transition system

Each transition is one of the pool's lock-protected code segments; the lock
is released during the liveness probe and session creation, so interleaved
operations of other callers may fire between a reservation and the
processing of its outcome.  Every code segment begins by validating `closed`
(at `Get` entry, after the probe, after `Connect` returns, after waking from
the capacity wait), which the corresponding guards reflect.  Wall-clock time
is an external input (`now` on the transitions that read it).  The prober /
creator identity is not tracked, so the system over-approximates the code's
behaviours; the proved invariants are safety properties and hold a fortiori.
Sessions are identified by a creation counter `nextId`, mirroring that each
`PooledConn` is a distinct heap object compared by pointer identity. -/

structure PooledConnM where
  id : Nat
  inUse : Bool
  lastUsed : Int
deriving DecidableEq, Repr

structure PoolStateM where
  conns : List PooledConnM
  creating : Nat
  closed : Bool
  created : Nat
  reused : Nat
  healthErr : Nat
  nextId : Nat
deriving DecidableEq, Repr

/-- `NewConnectionPool` (pool.go:67-92): empty pool, nothing in flight. -/
def initPool : PoolStateM := ⟨[], 0, false, 0, 0, 0, 0⟩

def markInUse (l : List PooledConnM) (i : Nat) : List PooledConnM :=
  l.map (fun c => if c.id = i then { c with inUse := true } else c)

def setIdle (l : List PooledConnM) (i : Nat) (now : Int) : List PooledConnM :=
  l.map (fun c => if c.id = i then { c with inUse := false, lastUsed := now } else c)

def touch (l : List PooledConnM) (i : Nat) (now : Int) : List PooledConnM :=
  l.map (fun c => if c.id = i then { c with lastUsed := now } else c)

def removeConn (l : List PooledConnM) (i : Nat) : List PooledConnM :=
  l.filter (fun c => c.id ≠ i)

/-- What a transition returns to its caller, if anything. -/
inductive PoolLabel where
  | retSession (id : Nat)
  | retPoolClosed
  | retCancelled
  | retCreateFailed
  | retTimeout
  | healthFail (id : Nat)
  | internal
deriving DecidableEq, Repr

inductive PoolStep (m : Nat) (idleTO : Int) : PoolStateM → PoolLabel → PoolStateM → Prop where
  /-- `Get` entry finds the pool closed (pool.go:98-101). -/
  | getEntryClosed (s : PoolStateM) (h : s.closed = true) :
      PoolStep m idleTO s .retPoolClosed s
  /-- loop-top context check fires (pool.go:107-112). -/
  | getCancelled (s : PoolStateM) (h : s.closed = false) :
      PoolStep m idleTO s .retCancelled s
  /-- an idle session past the idle timeout is closed and dropped
  (pool.go:123-129). -/
  | evictIdle (s : PoolStateM) (c : PooledConnM) (now : Int)
      (hcl : s.closed = false) (hc : c ∈ s.conns) (hu : c.inUse = false)
      (ht : idleTO < now - c.lastUsed) :
      PoolStep m idleTO s .internal { s with conns := removeConn s.conns c.id }
  /-- an idle session is reserved (marked in-use) before its probe
  (pool.go:131-133). -/
  | reserveIdle (s : PoolStateM) (c : PooledConnM)
      (hcl : s.closed = false) (hc : c ∈ s.conns) (hu : c.inUse = false) :
      PoolStep m idleTO s .internal { s with conns := markInUse s.conns c.id }
  /-- the probe returns but the pool closed meanwhile (pool.go:140-144). -/
  | probeClosed (s : PoolStateM) (h : s.closed = true) :
      PoolStep m idleTO s .retPoolClosed s
  /-- the probe failed: count it, close and remove the session, signal
  (pool.go:146-161). -/
  | probeFail (s : PoolStateM) (c : PooledConnM)
      (hcl : s.closed = false) (hc : c ∈ s.conns) (hu : c.inUse = true) :
      PoolStep m idleTO s (.healthFail c.id)
        { s with conns := removeConn s.conns c.id, healthErr := s.healthErr + 1 }
  /-- the probe succeeded: stamp last-used, count the reuse, hand the
  session out (pool.go:163-168). -/
  | probeOk (s : PoolStateM) (c : PooledConnM) (now : Int)
      (hcl : s.closed = false) (hc : c ∈ s.conns) (hu : c.inUse = true) :
      PoolStep m idleTO s (.retSession c.id)
        { s with conns := touch s.conns c.id now, reused := s.reused + 1 }
  /-- capacity remains: reserve a creation slot (pool.go:171-175). -/
  | reserveCreate (s : PoolStateM)
      (hcl : s.closed = false) (hcap : s.conns.length + s.creating < m) :
      PoolStep m idleTO s .internal { s with creating := s.creating + 1 }
  /-- `Connect` failed: release the slot, signal, surface the error
  (pool.go:188-195; this precedes the closed re-check, so it can fire on a
  closed pool). -/
  | createFailed (s : PoolStateM) (hcr : 0 < s.creating) :
      PoolStep m idleTO s .retCreateFailed { s with creating := s.creating - 1 }
  /-- `Connect` succeeded but the pool closed meanwhile: close the fresh
  session, fail (pool.go:197-201). -/
  | createClosed (s : PoolStateM) (hcr : 0 < s.creating) (h : s.closed = true) :
      PoolStep m idleTO s .retPoolClosed { s with creating := s.creating - 1 }
  /-- `Connect` succeeded: register the new session in-use and hand it out
  (pool.go:203-215). -/
  | createOk (s : PoolStateM) (now : Int) (hcr : 0 < s.creating) (h : s.closed = false) :
      PoolStep m idleTO s (.retSession s.nextId)
        { s with creating := s.creating - 1,
                 conns := s.conns ++ [⟨s.nextId, true, now⟩],
                 created := s.created + 1, nextId := s.nextId + 1 }
  /-- the overall wait deadline elapsed (pool.go:219-221). -/
  | waitTimeout (s : PoolStateM) (hcl : s.closed = false) :
      PoolStep m idleTO s .retTimeout s
  /-- woken from the capacity wait with the pool closed (pool.go:231-234). -/
  | wakeClosed (s : PoolStateM) (h : s.closed = true) :
      PoolStep m idleTO s .retPoolClosed s
  /-- `Put` on a still-tracked session: mark idle, stamp last-used, signal
  (pool.go:239-271). -/
  | putOk (s : PoolStateM) (c : PooledConnM) (now : Int)
      (hcl : s.closed = false) (hc : c ∈ s.conns) :
      PoolStep m idleTO s .internal { s with conns := setIdle s.conns c.id now }
  /-- `Put` on a closed pool or an already-evicted session: no state change
  (pool.go:247-263). -/
  | putNoop (s : PoolStateM) : PoolStep m idleTO s .internal s
  /-- `MarkBad`: close and remove the session, signal (pool.go:343-362). -/
  | markBad (s : PoolStateM) (c : PooledConnM) (hc : c ∈ s.conns) :
      PoolStep m idleTO s .internal { s with conns := removeConn s.conns c.id }
  /-- `Close`: mark closed, close and drop every session, wake all waiters
  (pool.go:274-292). -/
  | closePool (s : PoolStateM) :
      PoolStep m idleTO s .internal { s with closed := true, conns := [] }

/-- Zero or more pool transitions. -/
inductive PoolSteps (m : Nat) (idleTO : Int) : PoolStateM → PoolStateM → Prop where
  | refl (s : PoolStateM) : PoolSteps m idleTO s s
  | tail {s t u : PoolStateM} {l : PoolLabel} :
      PoolSteps m idleTO s t → PoolStep m idleTO t l u → PoolSteps m idleTO s u

/-- States reachable from a fresh pool. -/
def PoolReach (m : Nat) (idleTO : Int) (s : PoolStateM) : Prop :=
  PoolSteps m idleTO initPool s

def idleCount (s : PoolStateM) : Nat :=
  s.conns.countP (fun c => !c.inUse)

def inUseCount (s : PoolStateM) : Nat :=
  s.conns.countP (fun c => c.inUse)

theorem idle_add_inUse_eq_total (l : List PooledConnM) :
    l.countP (fun c => !c.inUse) + l.countP (fun c => c.inUse) = l.length := by
  induction l with
  | nil => rfl
  | cons c cs ih =>
    cases hcu : c.inUse <;> simp [List.countP_cons, hcu] <;> omega

theorem poolStep_size_bound {m : Nat} {idleTO : Int} {s s' : PoolStateM}
    {l : PoolLabel} (hstep : PoolStep m idleTO s l s')
    (hs : s.conns.length + s.creating ≤ m) :
    s'.conns.length + s'.creating ≤ m := by
  cases hstep with
  | getEntryClosed _ => exact hs
  | getCancelled _ => exact hs
  | probeClosed _ => exact hs
  | waitTimeout _ => exact hs
  | wakeClosed _ => exact hs
  | putNoop => exact hs
  | evictIdle c now hcl hc hu ht =>
    have h1 := List.length_filter_le (fun x : PooledConnM => decide (x.id ≠ c.id)) s.conns
    dsimp only
    simp only [removeConn]
    omega
  | probeFail c hcl hc hu =>
    have h1 := List.length_filter_le (fun x : PooledConnM => decide (x.id ≠ c.id)) s.conns
    dsimp only
    simp only [removeConn]
    omega
  | markBad c hc =>
    have h1 := List.length_filter_le (fun x : PooledConnM => decide (x.id ≠ c.id)) s.conns
    dsimp only
    simp only [removeConn]
    omega
  | reserveIdle c hcl hc hu =>
    dsimp only
    simp only [markInUse, List.length_map]
    omega
  | probeOk c now hcl hc hu =>
    dsimp only
    simp only [touch, List.length_map]
    omega
  | putOk c now hcl hc =>
    dsimp only
    simp only [setIdle, List.length_map]
    omega
  | reserveCreate hcl hcap =>
    dsimp only
    omega
  | createFailed hcr =>
    dsimp only
    omega
  | createClosed hcr h =>
    dsimp only
    omega
  | createOk now hcr h =>
    dsimp only
    simp only [List.length_append, List.length_cons, List.length_nil]
    omega
  | closePool =>
    dsimp only
    simp only [List.length_nil]
    omega

theorem poolReach_size_bound {m : Nat} {idleTO : Int} {s : PoolStateM}
    (h : PoolReach m idleTO s) : s.conns.length + s.creating ≤ m := by
  induction h with
  | refl => simp [initPool]
  | tail _ hstep ih => exact poolStep_size_bound hstep ih

/-- C2: in every reachable pool state, idle + in-use sessions equal the
total tracked sessions, the total never exceeds `maxSize`, and the total
plus in-flight creations never exceeds `maxSize`. -/
theorem pool_size_invariant (m : Nat) (idleTO : Int) (s : PoolStateM)
    (h : PoolReach m idleTO s) :
    idleCount s + inUseCount s = s.conns.length ∧
    s.conns.length ≤ m ∧
    s.conns.length + s.creating ≤ m := by
  have hb := poolReach_size_bound h
  exact ⟨idle_add_inUse_eq_total s.conns, by omega, hb⟩

/-- C2 witness: a pool of size 3 after one completed creation. -/
theorem pool_size_invariant_witness :
    idleCount ⟨[⟨0, true, 7⟩], 0, false, 1, 0, 0, 1⟩ +
        inUseCount ⟨[⟨0, true, 7⟩], 0, false, 1, 0, 0, 1⟩ =
      (PoolStateM.mk [⟨0, true, 7⟩] 0 false 1 0 0 1).conns.length ∧
    (PoolStateM.mk [⟨0, true, 7⟩] 0 false 1 0 0 1).conns.length ≤ 3 ∧
    (PoolStateM.mk [⟨0, true, 7⟩] 0 false 1 0 0 1).conns.length +
        (PoolStateM.mk [⟨0, true, 7⟩] 0 false 1 0 0 1).creating ≤ 3 :=
  pool_size_invariant 3 300 ⟨[⟨0, true, 7⟩], 0, false, 1, 0, 0, 1⟩
    (PoolSteps.tail
      (PoolSteps.tail (PoolSteps.refl initPool)
        (PoolStep.reserveCreate initPool rfl (by decide)))
      (PoolStep.createOk ⟨[], 1, false, 0, 0, 0, 0⟩ 7 (by decide) rfl))

/-! ## C4: after Close, Get always fails with the pool-closed error -/

def poolClosedErr : String := "connection pool closed"

/-- The closed check at `Get` entry (pool.go:96-101): a call entering a
closed pool fails immediately. -/
def getEntry (s : PoolStateM) : Option String :=
  if s.closed = true then some poolClosedErr else none

/-- The closed check a waiter performs right after waking from the capacity
wait (pool.go:231-234). -/
def wakeCheck (s : PoolStateM) : Option String :=
  if s.closed = true then some poolClosedErr else none

/-- C4: on a closed pool, `Get` entry fails with the pool-closed error, a
woken waiter fails with the pool-closed error, no transition hands a session
out, and the pool stays closed. -/
theorem pool_closed_no_handout (m : Nat) (idleTO : Int) (s s' : PoolStateM)
    (l : PoolLabel) (hc : s.closed = true) :
    getEntry s = some poolClosedErr ∧
    wakeCheck s = some poolClosedErr ∧
    (PoolStep m idleTO s l s' → (∀ i, l ≠ .retSession i) ∧ s'.closed = true) := by
  refine ⟨by simp [getEntry, hc], by simp [wakeCheck, hc], ?_⟩
  intro hstep
  cases hstep <;> simp_all

/-- C4 witness: a concrete closed pool, together with a no-op `Put` step. -/
theorem pool_closed_no_handout_witness :
    getEntry ⟨[], 0, true, 1, 2, 0, 1⟩ = some poolClosedErr ∧
    wakeCheck ⟨[], 0, true, 1, 2, 0, 1⟩ = some poolClosedErr ∧
    (PoolStep 3 300 ⟨[], 0, true, 1, 2, 0, 1⟩ .internal ⟨[], 0, true, 1, 2, 0, 1⟩ →
      (∀ i, PoolLabel.internal ≠ .retSession i) ∧
      (PoolStateM.mk [] 0 true 1 2 0 1).closed = true) :=
  pool_closed_no_handout 3 300 ⟨[], 0, true, 1, 2, 0, 1⟩
    ⟨[], 0, true, 1, 2, 0, 1⟩ .internal rfl

/-! ## C5: a session whose liveness probe fails is gone for good -/

def connIds (s : PoolStateM) : List Nat := s.conns.map (fun c => c.id)

/-- Every tracked session id was allocated below the id counter. -/
def idsBounded (s : PoolStateM) : Prop := ∀ c ∈ s.conns, c.id < s.nextId

/-- `k` is not tracked and can no longer be allocated. -/
def notTracked (k : Nat) (s : PoolStateM) : Prop :=
  k ∉ connIds s ∧ k < s.nextId

theorem id_of_mem_map_preserve {l : List PooledConnM} {f : PooledConnM → PooledConnM}
    (hf : ∀ c, (f c).id = c.id) {c' : PooledConnM} (h : c' ∈ l.map f) :
    ∃ c ∈ l, c'.id = c.id := by
  obtain ⟨c, hc, rfl⟩ := List.mem_map.mp h
  exact ⟨c, hc, hf c⟩

theorem markInUse_id (i : Nat) :
    ∀ c : PooledConnM, ((fun c => if c.id = i then { c with inUse := true } else c) c).id = c.id := by
  intro c
  by_cases h : c.id = i <;> simp [h]

theorem setIdle_id (i : Nat) (now : Int) :
    ∀ c : PooledConnM,
      ((fun c => if c.id = i then { c with inUse := false, lastUsed := now } else c) c).id = c.id := by
  intro c
  by_cases h : c.id = i <;> simp [h]

theorem touch_id (i : Nat) (now : Int) :
    ∀ c : PooledConnM,
      ((fun c => if c.id = i then { c with lastUsed := now } else c) c).id = c.id := by
  intro c
  by_cases h : c.id = i <;> simp [h]

theorem poolStep_idsBounded {m : Nat} {idleTO : Int} {s s' : PoolStateM}
    {l : PoolLabel} (hstep : PoolStep m idleTO s l s') (hb : idsBounded s) :
    idsBounded s' ∧ s.nextId ≤ s'.nextId := by
  cases hstep with
  | getEntryClosed _ => exact ⟨hb, le_refl _⟩
  | getCancelled _ => exact ⟨hb, le_refl _⟩
  | probeClosed _ => exact ⟨hb, le_refl _⟩
  | waitTimeout _ => exact ⟨hb, le_refl _⟩
  | wakeClosed _ => exact ⟨hb, le_refl _⟩
  | putNoop => exact ⟨hb, le_refl _⟩
  | evictIdle c now hcl hc hu ht =>
    exact ⟨fun c' hc' => hb c' (List.mem_of_mem_filter hc'), le_refl _⟩
  | probeFail c hcl hc hu =>
    exact ⟨fun c' hc' => hb c' (List.mem_of_mem_filter hc'), le_refl _⟩
  | markBad c hc =>
    exact ⟨fun c' hc' => hb c' (List.mem_of_mem_filter hc'), le_refl _⟩
  | reserveIdle c hcl hc hu =>
    refine ⟨fun c' hc' => ?_, le_refl _⟩
    obtain ⟨c0, hc0, hid⟩ := id_of_mem_map_preserve (markInUse_id c.id) hc'
    rw [hid]
    exact hb c0 hc0
  | probeOk c now hcl hc hu =>
    refine ⟨fun c' hc' => ?_, le_refl _⟩
    obtain ⟨c0, hc0, hid⟩ := id_of_mem_map_preserve (touch_id c.id now) hc'
    rw [hid]
    exact hb c0 hc0
  | putOk c now hcl hc =>
    refine ⟨fun c' hc' => ?_, le_refl _⟩
    obtain ⟨c0, hc0, hid⟩ := id_of_mem_map_preserve (setIdle_id c.id now) hc'
    rw [hid]
    exact hb c0 hc0
  | reserveCreate hcl hcap => exact ⟨hb, le_refl _⟩
  | createFailed hcr => exact ⟨hb, le_refl _⟩
  | createClosed hcr h => exact ⟨hb, le_refl _⟩
  | createOk now hcr h =>
    refine ⟨fun c' hc' => ?_, by show s.nextId ≤ s.nextId + 1; omega⟩
    rcases List.mem_append.mp hc' with h1 | h1
    · have := hb c' h1
      show c'.id < s.nextId + 1
      omega
    · simp only [List.mem_singleton] at h1
      subst h1
      show s.nextId < s.nextId + 1
      omega
  | closePool =>
    exact ⟨fun c' hc' => absurd hc' (List.not_mem_nil c'), le_refl _⟩

theorem poolReach_idsBounded {m : Nat} {idleTO : Int} {s : PoolStateM}
    (h : PoolReach m idleTO s) : idsBounded s := by
  induction h with
  | refl => intro c hc; exact absurd hc (List.not_mem_nil c)
  | tail _ hstep ih => exact (poolStep_idsBounded hstep ih).1

theorem poolStep_notTracked {m : Nat} {idleTO : Int} {s s' : PoolStateM}
    {l : PoolLabel} {k : Nat} (hstep : PoolStep m idleTO s l s')
    (hnt : notTracked k s) : notTracked k s' ∧ l ≠ .retSession k := by
  obtain ⟨hkn, hklt⟩ := hnt
  cases hstep with
  | getEntryClosed _ => exact ⟨⟨hkn, hklt⟩, by simp⟩
  | getCancelled _ => exact ⟨⟨hkn, hklt⟩, by simp⟩
  | probeClosed _ => exact ⟨⟨hkn, hklt⟩, by simp⟩
  | waitTimeout _ => exact ⟨⟨hkn, hklt⟩, by simp⟩
  | wakeClosed _ => exact ⟨⟨hkn, hklt⟩, by simp⟩
  | putNoop => exact ⟨⟨hkn, hklt⟩, by simp⟩
  | reserveCreate hcl hcap => exact ⟨⟨hkn, hklt⟩, by simp⟩
  | createFailed hcr => exact ⟨⟨hkn, hklt⟩, by simp⟩
  | createClosed hcr h => exact ⟨⟨hkn, hklt⟩, by simp⟩
  | evictIdle c now hcl hc hu ht =>
    refine ⟨⟨fun hmem => ?_, hklt⟩, by simp⟩
    obtain ⟨c', hc', rfl⟩ := List.mem_map.mp hmem
    exact hkn (List.mem_map.mpr ⟨c', List.mem_of_mem_filter hc', rfl⟩)
  | probeFail c hcl hc hu =>
    refine ⟨⟨fun hmem => ?_, hklt⟩, ?_⟩
    · obtain ⟨c', hc', rfl⟩ := List.mem_map.mp hmem
      exact hkn (List.mem_map.mpr ⟨c', List.mem_of_mem_filter hc', rfl⟩)
    · intro he
      cases he
  | markBad c hc =>
    refine ⟨⟨fun hmem => ?_, hklt⟩, by simp⟩
    obtain ⟨c', hc', rfl⟩ := List.mem_map.mp hmem
    exact hkn (List.mem_map.mpr ⟨c', List.mem_of_mem_filter hc', rfl⟩)
  | reserveIdle c hcl hc hu =>
    refine ⟨⟨fun hmem => ?_, hklt⟩, by simp⟩
    obtain ⟨c', hc', rfl⟩ := List.mem_map.mp hmem
    obtain ⟨c0, hc0, hid⟩ := id_of_mem_map_preserve (markInUse_id c.id) hc'
    exact hkn (by rw [hid] at *; exact List.mem_map.mpr ⟨c0, hc0, hid.symm ▸ rfl⟩)
  | probeOk c now hcl hc hu =>
    refine ⟨⟨fun hmem => ?_, hklt⟩, ?_⟩
    · obtain ⟨c', hc', rfl⟩ := List.mem_map.mp hmem
      obtain ⟨c0, hc0, hid⟩ := id_of_mem_map_preserve (touch_id c.id now) hc'
      exact hkn (by rw [hid] at *; exact List.mem_map.mpr ⟨c0, hc0, hid.symm ▸ rfl⟩)
    · intro he
      cases he
      exact hkn (List.mem_map.mpr ⟨c, hc, rfl⟩)
  | putOk c now hcl hc =>
    refine ⟨⟨fun hmem => ?_, hklt⟩, by simp⟩
    obtain ⟨c', hc', rfl⟩ := List.mem_map.mp hmem
    obtain ⟨c0, hc0, hid⟩ := id_of_mem_map_preserve (setIdle_id c.id now) hc'
    exact hkn (by rw [hid] at *; exact List.mem_map.mpr ⟨c0, hc0, hid.symm ▸ rfl⟩)
  | createOk now hcr h =>
    refine ⟨⟨fun hmem => ?_, by show k < s.nextId + 1; omega⟩, ?_⟩
    · simp only [connIds, List.map_append, List.mem_append] at hmem
      rcases hmem with h1 | h1
      · exact hkn h1
      · simp only [List.map_cons, List.map_nil, List.mem_singleton] at h1
        omega
    · intro he
      cases he
      omega
  | closePool =>
    refine ⟨⟨fun hmem => ?_, hklt⟩, by simp⟩
    simp [connIds] at hmem

theorem poolSteps_notTracked {m : Nat} {idleTO : Int} {s s' : PoolStateM}
    {k : Nat} (hsteps : PoolSteps m idleTO s s') (hnt : notTracked k s) :
    notTracked k s' := by
  induction hsteps with
  | refl => exact hnt
  | tail _ hstep ih => exact (poolStep_notTracked hstep ih).1

/-- C5: when an idle session's liveness probe fails during `Get`, the
session is removed from the pool, is never tracked again nor handed to any
caller afterwards, and `healthErr` increases by exactly one — on this
transition and on no other kind of transition. -/
theorem health_fail_removes_forever (m : Nat) (idleTO : Int)
    (s s' s2 : PoolStateM) (k : Nat)
    (hreach : PoolReach m idleTO s)
    (hstep : PoolStep m idleTO s (.healthFail k) s')
    (hsteps : PoolSteps m idleTO s' s2) :
    s'.healthErr = s.healthErr + 1 ∧
    k ∉ connIds s' ∧
    k ∉ connIds s2 ∧
    (∀ (l2 : PoolLabel) (s3 : PoolStateM), PoolStep m idleTO s2 l2 s3 →
      l2 ≠ .retSession k) ∧
    (∀ (t t' : PoolStateM) (l2 : PoolLabel), PoolStep m idleTO t l2 t' →
      t'.healthErr =
        (match l2 with
          | .healthFail _ => t.healthErr + 1
          | _ => t.healthErr)) := by
  have hb : idsBounded s := poolReach_idsBounded hreach
  cases hstep with
  | probeFail c hcl hc hu =>
    have hklt : c.id < s.nextId := hb c hc
    have hkn : c.id ∉ List.map (fun c => c.id) (removeConn s.conns c.id) := by
      intro hmem
      obtain ⟨c', hc', hid⟩ := List.mem_map.mp hmem
      have h2 := List.of_mem_filter hc'
      simp only [decide_eq_true_eq] at h2
      exact h2 hid
    have hnt2 := poolSteps_notTracked hsteps ⟨hkn, hklt⟩
    refine ⟨rfl, hkn, hnt2.1, ?_, ?_⟩
    · intro l2 s3 hstep2
      exact (poolStep_notTracked hstep2 hnt2).2
    · intro t t' l2 hstep2
      cases hstep2 <;> rfl

/-- C5 witness: the probe of the single pooled session fails; its id 0
leaves the pool, `healthErr` ticks to 1. -/
theorem health_fail_removes_forever_witness :
    (PoolStateM.mk [] 0 false 1 0 1 1).healthErr =
      (PoolStateM.mk [⟨0, true, 7⟩] 0 false 1 0 0 1).healthErr + 1 ∧
    0 ∉ connIds ⟨[], 0, false, 1, 0, 1, 1⟩ ∧
    0 ∉ connIds ⟨[], 0, false, 1, 0, 1, 1⟩ ∧
    (∀ (l2 : PoolLabel) (s3 : PoolStateM),
      PoolStep 3 300 ⟨[], 0, false, 1, 0, 1, 1⟩ l2 s3 → l2 ≠ .retSession 0) ∧
    (∀ (t t' : PoolStateM) (l2 : PoolLabel), PoolStep 3 300 t l2 t' →
      t'.healthErr =
        (match l2 with
          | .healthFail _ => t.healthErr + 1
          | _ => t.healthErr)) := by
  have h := health_fail_removes_forever 3 300
    ⟨[⟨0, true, 7⟩], 0, false, 1, 0, 0, 1⟩ ⟨[], 0, false, 1, 0, 1, 1⟩
    ⟨[], 0, false, 1, 0, 1, 1⟩ 0
    (PoolSteps.tail
      (PoolSteps.tail (PoolSteps.refl initPool)
        (PoolStep.reserveCreate initPool rfl (by decide)))
      (PoolStep.createOk ⟨[], 1, false, 0, 0, 0, 0⟩ 7 (by decide) rfl))
    (PoolStep.probeFail ⟨[⟨0, true, 7⟩], 0, false, 1, 0, 0, 1⟩ ⟨0, true, 7⟩
      rfl (List.mem_singleton.mpr rfl) rfl)
    (PoolSteps.refl _)
  exact h

/-! ## C3: cancellation during folder dispatch (cleaner.go:112-148)

The dispatch loop checks the run context at the top of each iteration; on
cancellation it sets the aggregate status to "cancelled" and jumps
(`goto done`, cleaner.go:120-123) to the collection label.  The jump skips
`wg.Wait()` (cleaner.go:139), so `close(statsCh)` (cleaner.go:142) runs
while already-dispatched workers may still be executing: only stats that
reached the buffered channel before the close are drained into the result;
a worker finishing later loses its stat (and its send on the closed channel
faults at runtime). -/

/-- Aggregate result of a run (`model.CleanResult`, restricted to the fields
the dispatch logic determines). -/
structure CleanResultM where
  status : String
  folderStats : List FolderCleanStatM
deriving DecidableEq, Repr

/-- Model of the dispatch/collection logic of `Cleaner.Clean`
(cleaner.go:112-148).  `stats i` is the stat the worker for folder `i`
eventually produces; `cancelIdx = some k` means the run context is first
observed cancelled at the top of dispatch iteration `k` (with `k` less than
the folder count; otherwise cancellation is never observed during dispatch);
`sentBeforeClose i` says whether dispatched worker `i` delivered its stat
into the buffered channel before `close(statsCh)`.  On the normal path
`wg.Wait()` guarantees every worker has sent before the close.  The second
component is the list of folder indices whose workers were dispatched. -/
def cleanDispatch (folders : List String) (stats : Nat → FolderCleanStatM)
    (cancelIdx : Option Nat) (sentBeforeClose : Nat → Bool) :
    CleanResultM × List Nat :=
  let n := folders.length
  match cancelIdx with
  | some k =>
    if k < n then
      (⟨"cancelled", ((List.range k).filter sentBeforeClose).map stats⟩,
        List.range k)
    else (⟨"completed", (List.range n).map stats⟩, List.range n)
  | none => (⟨"completed", (List.range n).map stats⟩, List.range n)

/-- Worker outcomes for the concrete two-folder run. -/
def statsW : Nat → FolderCleanStatM :=
  fun i => if i = 0 then ⟨"A", 5, 3, "completed", ""⟩ else ⟨"B", 0, 0, "completed", ""⟩

/-- C3: on a two-folder run cancelled at dispatch index 1 while worker 0 is
still running (its stat not yet sent), the aggregate status is "cancelled"
and folder 1 is never dispatched — as the claim states — but worker 0's
partial stat is **not** collected into the final result: `goto done` skips
`wg.Wait()`, so the stats channel is closed and drained before the worker
delivers.  This contradicts the claim's "every already-dispatched folder
worker still runs to completion with its partial FolderCleanStat collected
into the final result". -/
theorem clean_cancel_drops_dispatched_stat :
    (cleanDispatch ["A", "B"] statsW (some 1) (fun _ => false)).1.status =
      "cancelled" ∧
    (cleanDispatch ["A", "B"] statsW (some 1) (fun _ => false)).2 = [0] ∧
    (cleanDispatch ["A", "B"] statsW (some 1) (fun _ => false)).1.folderStats = [] ∧
    statsW 0 ∉
      (cleanDispatch ["A", "B"] statsW (some 1) (fun _ => false)).1.folderStats := by
  refine ⟨rfl, by decide, rfl, by decide⟩

end CleanMyEmail
